import Mathlib

/-!
Verification of the data-coordination core of the forge-dataviz-iot-data-modules
repository: the bounded-concurrency TaskQueue, the debounced RequestPool and the
time-indexed aggregate cache (DataStore / DeviceData / PropertyData).

JavaScript objects used as string-keyed maps are embedded as association lists
with object-key semantics: assigning to an existing key replaces its value in
place, assigning to a fresh key appends it.  JavaScript numbers appearing in the
modelled code (epoch seconds, aggregate statistics) are embedded as integers;
none of the verified properties depends on floating-point rounding.
-/

namespace Hyperion

/-- JavaScript numbers, as they appear in the modelled portions of the code. -/
abbrev JSNum := Int

/-- First value stored under a key, i.e. JavaScript property read obj[k]. -/
def lookupAssoc {α : Type} (m : List (String × α)) (k : String) : Option α :=
  match m with
  | [] => none
  | (k', v) :: rest => if k' = k then some v else lookupAssoc rest k

/-- Whether the object has the key, i.e. the JavaScript truthiness test on obj[k]. -/
def hasKey {α : Type} (m : List (String × α)) (k : String) : Bool :=
  m.any (fun kv => kv.1 = k)

/-- JavaScript property write obj[k] = v: replace in place when the key exists,
append otherwise. -/
def insertAssoc {α : Type} (m : List (String × α)) (k : String) (v : α) : List (String × α) :=
  if hasKey m k then m.map (fun kv => if kv.1 = k then (k, v) else kv)
  else m ++ [(k, v)]

/-- Number of entries stored under a key. -/
def countKey {α : Type} (m : List (String × α)) (k : String) : Nat :=
  (m.filter (fun kv => kv.1 = k)).length

/-- DateTimeSpan from Hyperion.Data.Storage.js: start/end epoch seconds plus an
ISO-8601 resolution string. -/
structure DateTimeSpan where
  startSecond : JSNum
  endSecond : JSNum
  resolution : String
deriving DecidableEq, Repr

/-- DateTimeSpan.hashCode: the canonical cache key, the three fields joined by dashes. -/
def DateTimeSpan.hashCode (s : DateTimeSpan) : String :=
  toString s.startSecond ++ "-" ++ toString s.endSecond ++ "-" ++ s.resolution

/-- PropertyValue from Hyperion.Data.DataModel.js: a timestamp/value pair. -/
structure PropertyValue where
  timestamp : JSNum
  value : JSNum
deriving DecidableEq, Repr

/-- AggregatedValues from Hyperion.Data.DataModel.js.  The statistics arrays
start out undefined in the constructor and are filled in by setters, hence the
Option; the side table maps an aggregate name to its observed min/max pair. -/
structure AggregatedValues where
  dateTimeSpan : DateTimeSpan
  dataRange : List (String × JSNum × JSNum)
  tsValues : Option (List JSNum) := none
  countValues : Option (List JSNum) := none
  maxValues : Option (List JSNum) := none
  minValues : Option (List JSNum) := none
  avgValues : Option (List JSNum) := none
  sumValues : Option (List JSNum) := none
  stdDevValues : Option (List JSNum) := none
deriving DecidableEq, Repr

/-- AggregatedValues.id: the hash code of its DateTimeSpan. -/
def AggregatedValues.id (a : AggregatedValues) : String :=
  a.dateTimeSpan.hashCode

/-- PropertyData from Hyperion.Data.DataModel.js: one property of one device,
its current value slot and its map from DateTimeSpan hash code to
AggregatedValues. -/
structure PropertyData where
  propId : String
  currentValue : Option PropertyValue
  aggregatedValues : List (String × AggregatedValues)
deriving DecidableEq, Repr

/-- PropertyData constructor. -/
def PropertyData.new (propId : String) : PropertyData :=
  { propId := propId, currentValue := none, aggregatedValues := [] }

/-- PropertyData.aggregatedValuesList: Object.values of the aggregate map. -/
def PropertyData.aggregatedValuesList (pd : PropertyData) : List AggregatedValues :=
  pd.aggregatedValues.map (fun kv => kv.2)

/-- PropertyData.setCurrentValue. -/
def PropertyData.setCurrentValue (pd : PropertyData) (v : Option PropertyValue) : PropertyData :=
  { pd with currentValue := v }

/-- PropertyData.getCurrentValue. -/
def PropertyData.getCurrentValue (pd : PropertyData) : Option PropertyValue :=
  pd.currentValue

/-- PropertyData.setAggregatedValues: store under the id of the incoming
AggregatedValues, replacing any entry of the same id. -/
def PropertyData.setAggregatedValues (pd : PropertyData) (a : AggregatedValues) : PropertyData :=
  { pd with aggregatedValues := insertAssoc pd.aggregatedValues a.id a }

/-- PropertyData.getAggregatedValues: look up by the span's hash code. -/
def PropertyData.getAggregatedValues (pd : PropertyData) (span : DateTimeSpan) :
    Option AggregatedValues :=
  lookupAssoc pd.aggregatedValues span.hashCode

/-- PropertyData.mergeFrom: unconditionally overwrite the current value with the
other record's, then store each of the other record's AggregatedValues under
its id (the loop body this._aggregatedValues[id] = aggValues is exactly
setAggregatedValues). -/
def PropertyData.mergeFrom (pd other : PropertyData) : PropertyData :=
  other.aggregatedValuesList.foldl PropertyData.setAggregatedValues
    (pd.setCurrentValue other.getCurrentValue)

/-- DeviceData from Hyperion.Data.DataModel.js: one device and its map from
property id to PropertyData. -/
structure DeviceData where
  deviceId : String
  propData : List (String × PropertyData)
deriving DecidableEq, Repr

/-- DeviceData constructor. -/
def DeviceData.new (deviceId : String) : DeviceData :=
  { deviceId := deviceId, propData := [] }

/-- DeviceData.propertyDataList: Object.values of the property map. -/
def DeviceData.propertyDataList (dd : DeviceData) : List PropertyData :=
  dd.propData.map (fun kv => kv.2)

/-- DeviceData.mergeFrom: per property of the other record, merge into the
existing PropertyData when present, otherwise store the incoming one. -/
def DeviceData.mergeFrom (dd other : DeviceData) : DeviceData :=
  other.propertyDataList.foldl
    (fun acc pd =>
      match lookupAssoc acc.propData pd.propId with
      | some existing =>
          { acc with propData := insertAssoc acc.propData pd.propId (existing.mergeFrom pd) }
      | none => { acc with propData := acc.propData ++ [(pd.propId, pd)] })
    dd

/-- DeviceData.getPropertyData: return the existing PropertyData, creating and
storing a fresh one when absent (a mutation of the device record). -/
def DeviceData.getPropertyData (dd : DeviceData) (propId : String) :
    PropertyData × DeviceData :=
  match lookupAssoc dd.propData propId with
  | some pd => (pd, dd)
  | none =>
      (PropertyData.new propId,
       { dd with propData := dd.propData ++ [(propId, PropertyData.new propId)] })

/-- DeviceData.updateCurrentPropertyValue: overwrite only the current-value slot
of an existing property, no-op otherwise. -/
def DeviceData.updateCurrentPropertyValue (dd : DeviceData) (propId : String)
    (v : Option PropertyValue) : DeviceData :=
  match lookupAssoc dd.propData propId with
  | some pd => { dd with propData := insertAssoc dd.propData propId (pd.setCurrentValue v) }
  | none => dd

/-- QueryParam from Hyperion.Data.Adapter.js: the batched query for one device,
carrying a copy of the active DateTimeSpan and the accumulated property ids. -/
structure QueryParam where
  dateTimeSpan : DateTimeSpan
  deviceId : String
  propertyIds : List String
deriving DecidableEq, Repr

/-- QueryCompletedEventArgs from Hyperion.Data.Event.js. -/
structure QueryCompletedEventArgs where
  query : QueryParam
deriving DecidableEq, Repr

/-- RequestPool state from Hyperion.Data.RequestPool.js: the active
DateTimeSpan (null until the first request), the pending map from device id to
requested property ids, and whether the throttle timer is armed. -/
structure RequestPool where
  dateTimeSpan : Option DateTimeSpan
  requestedData : List (String × List String)
  throttleTimerActive : Bool
deriving DecidableEq, Repr

/-- RequestPool constructor. -/
def RequestPool.new : RequestPool :=
  { dateTimeSpan := none, requestedData := [], throttleTimerActive := false }

/-- RequestPool._startThrottleTimer: arm (or restart) the debounce timer. -/
def RequestPool.startThrottleTimer (p : RequestPool) : RequestPool :=
  { p with throttleTimerActive := true }

/-- First recording step of RequestPool.addRequest: initialise the device key
to an empty list when the pending map does not have it yet. -/
def ensureKey (m : List (String × List String)) (deviceId : String) :
    List (String × List String) :=
  if hasKey m deviceId then m else m ++ [(deviceId, [])]

/-- Second recording step of RequestPool.addRequest: push the property id onto
the device's list only when includes does not already find it. -/
def pushIfAbsent (m : List (String × List String)) (deviceId propertyId : String) :
    List (String × List String) :=
  let props := (lookupAssoc m deviceId).getD []
  if props.contains propertyId then m
  else insertAssoc m deviceId (props ++ [propertyId])

/-- Recording step of RequestPool.addRequest on the pending map: both steps. -/
def addPair (m : List (String × List String)) (deviceId propertyId : String) :
    List (String × List String) :=
  pushIfAbsent (ensureKey m deviceId) deviceId propertyId

/-- RequestPool.addRequest: discard all pending requests when the window's hash
code differs from the active one (or none is active yet) and adopt the new
window; record the pair per addPair; then restart the throttle timer. -/
def RequestPool.addRequest (p : RequestPool) (deviceId propertyId : String)
    (dateTimeSpan : DateTimeSpan) : RequestPool :=
  let p1 :=
    match p.dateTimeSpan with
    | none => { p with dateTimeSpan := some dateTimeSpan, requestedData := [] }
    | some cur =>
        if cur.hashCode ≠ dateTimeSpan.hashCode then
          { p with dateTimeSpan := some dateTimeSpan, requestedData := [] }
        else p
  { dateTimeSpan := p1.dateTimeSpan,
    requestedData := addPair p1.requestedData deviceId propertyId,
    throttleTimerActive := true }

/-- RequestPool._beginProcessRequests: snapshot the pending map into one
QueryParam per device (each carrying a copy of the active span and of the
property list) and clear the pending map.  Returns none when no span is active,
where the JavaScript constructor call would fail on null. -/
def RequestPool.beginProcessRequests (p : RequestPool) :
    Option (List QueryParam × RequestPool) :=
  match p.dateTimeSpan with
  | none => none
  | some span =>
      some (p.requestedData.map
              (fun kv => { dateTimeSpan := span, deviceId := kv.1, propertyIds := kv.2 }),
            { p with requestedData := [] })

/-- DataStore state from Hyperion.Data.Storage.js: the cache map from device id
to DeviceData, plus the owned RequestPool.  QueryCompleted events emitted
through the EventSource base class are returned by the operations that emit
them. -/
structure DataStore where
  deviceData : List (String × DeviceData)
  requestPool : RequestPool
deriving DecidableEq, Repr

/-- DataStore constructor. -/
def DataStore.new : DataStore :=
  { deviceData := [], requestPool := RequestPool.new }

/-- DataStore.getAggregatedValues: walk device record, property record (created
on demand by getPropertyData, mutating the cache) and the span key; on a miss,
hand the triple to RequestPool.addRequest and return undefined.  The returned
list records the addRequest calls performed, already applied to the pool. -/
def DataStore.getAggregatedValues (s : DataStore) (deviceId propertyId : String)
    (dateTimeSpan : DateTimeSpan) :
    Option AggregatedValues × DataStore × List (String × String × DateTimeSpan) :=
  match lookupAssoc s.deviceData deviceId with
  | none =>
      (none,
       { s with requestPool := s.requestPool.addRequest deviceId propertyId dateTimeSpan },
       [(deviceId, propertyId, dateTimeSpan)])
  | some dd =>
      let pdd := dd.getPropertyData propertyId
      let s1 := { s with deviceData := insertAssoc s.deviceData deviceId pdd.2 }
      match pdd.1.getAggregatedValues dateTimeSpan with
      | some av => (some av, s1, [])
      | none =>
          (none,
           { s1 with requestPool := s1.requestPool.addRequest deviceId propertyId dateTimeSpan },
           [(deviceId, propertyId, dateTimeSpan)])

/-- Pure readout of the cache paths that DataStore.getAggregatedValues walks,
with no side effect: device record, property record, span key. -/
def DataStore.cacheLookup (s : DataStore) (deviceId propertyId : String)
    (dateTimeSpan : DateTimeSpan) : Option AggregatedValues :=
  match lookupAssoc s.deviceData deviceId with
  | none => none
  | some dd =>
      match lookupAssoc dd.propData propertyId with
      | none => none
      | some pd => pd.getAggregatedValues dateTimeSpan

/-- Outcome of one fetchDeviceData call, resolving the external collaborators:
either no adapter is registered for the device (the promise resolves null), or
the adapter's fetch succeeds with a DeviceData, or it fails. -/
inductive FetchOutcome where
  | noAdapter
  | success (deviceData : DeviceData)
  | failure
deriving DecidableEq, Repr

/-- DataStore.fetchDeviceData: with no adapter, resolve null without touching
the cache; on adapter success, merge the incoming DeviceData into the cache
under its own device id (create the entry when absent) and resolve with it; on
adapter failure, propagate the rejection.  Except.error models a rejected
promise. -/
def DataStore.fetchDeviceData (s : DataStore) (query : QueryParam)
    (outcome : FetchOutcome) : Except Unit (Option DeviceData) × DataStore :=
  match outcome with
  | FetchOutcome.noAdapter => (Except.ok none, s)
  | FetchOutcome.failure => (Except.error (), s)
  | FetchOutcome.success dd =>
      match lookupAssoc s.deviceData dd.deviceId with
      | some existing =>
          (Except.ok (some dd),
           { s with deviceData := insertAssoc s.deviceData dd.deviceId (existing.mergeFrom dd) })
      | none =>
          (Except.ok (some dd),
           { s with deviceData := s.deviceData ++ [(dd.deviceId, dd)] })
  -- the unused query parameter mirrors the JavaScript signature: the adapter
  -- consumes it, and the abstracted outcome stands for the adapter's answer

/-- One run of requestTask from RequestPool._makeSingleRequest: call
fetchDeviceData; when the promise resolves, emit one QueryCompleted event
carrying the originating query; when it rejects, emit nothing (the catch
branch decides on a retry).  The merge inside fetchDeviceData happens before
the event is emitted. -/
def runRequestTask (s : DataStore) (query : QueryParam) (outcome : FetchOutcome) :
    DataStore × List QueryCompletedEventArgs :=
  let r := s.fetchDeviceData query outcome
  match r.1 with
  | Except.ok _ => (r.2, [{ query := query }])
  | Except.error _ => (r.2, [])

/-- Retry decision from the catch branch of requestTask: the post-increment
test retryAttempts++ < 4 yields the resubmit decision and the new counter. -/
def retryCheck (retryAttempts : Nat) : Bool × Nat :=
  (decide (retryAttempts < 4), retryAttempts + 1)

/-- Fixed retry delay of the catch branch, in milliseconds. -/
def retryDelayMs : Nat := 3000

/-- Run requestTask for a query whose fetch always fails, following the retry
re-submissions until the counter check denies one more.  Returns the final
store, all emitted events and the number of retry re-submissions performed. -/
def runUntilRetriesExhausted (s : DataStore) (query : QueryParam)
    (retryAttempts : Nat) : DataStore × List QueryCompletedEventArgs × Nat :=
  let run1 := runRequestTask s query FetchOutcome.failure
  if h : (retryCheck retryAttempts).1 = true then
    let next1 := runUntilRetriesExhausted run1.1 query (retryCheck retryAttempts).2
    (next1.1, run1.2 ++ next1.2.1, next1.2.2 + 1)
  else (run1.1, run1.2, 0)
termination_by 4 - retryAttempts
decreasing_by
  simp only [retryCheck, decide_eq_true_eq] at h
  simp only [retryCheck]
  omega

/-- One dispatched task of the TaskQueue, identified by the submitted task id,
with the single-shot guard of its onFinish closure (executed flag). -/
structure TaskToken where
  taskId : Nat
  executed : Bool
deriving DecidableEq, Repr

/-- TaskQueue state from shared/TaskQueue.js: the concurrency ceiling, the
onGoingTask counter, the queue of submitted-but-undispatched task ids and one
TaskToken per dispatch performed so far. -/
structure TaskQueue where
  cocurrent : Nat
  onGoingTask : Nat
  queue : List Nat
  tokens : List TaskToken
deriving DecidableEq, Repr

/-- TaskQueue constructor: cocurrent || 3 defaults a zero (falsy) bound to 3. -/
def TaskQueue.new (cocurrent : Nat) : TaskQueue :=
  { cocurrent := if cocurrent = 0 then 3 else cocurrent,
    onGoingTask := 0, queue := [], tokens := [] }

/-- Watchdog timeout armed at dispatch time, in milliseconds. -/
def watchdogTimeoutMs : Nat := 300000

/-- Loop body of TaskQueue.executeNext, recursing on the queue: while a slot is
free and the queue is non-empty, shift the next task, increment the counter and
dispatch it with a fresh single-shot onFinish closure (a new TaskToken).
Returns the counter, the remaining queue and the tokens. -/
def executeNextLoop (cocurrent : Nat) (onGoingTask : Nat) (tokens : List TaskToken) :
    List Nat → Nat × List Nat × List TaskToken
  | [] => (onGoingTask, [], tokens)
  | task :: rest =>
      if onGoingTask < cocurrent then
        executeNextLoop cocurrent (onGoingTask + 1)
          (tokens ++ [{ taskId := task, executed := false }]) rest
      else (onGoingTask, task :: rest, tokens)

/-- TaskQueue.executeNext: run the dispatch loop on the current state. -/
def TaskQueue.executeNext (q : TaskQueue) : TaskQueue :=
  let r := executeNextLoop q.cocurrent q.onGoingTask q.tokens q.queue
  { cocurrent := q.cocurrent, onGoingTask := r.1, queue := r.2.1, tokens := r.2.2 }

/-- TaskQueue.onTaskFinished: decrement onGoingTask, clamped at zero, then run
executeNext (deferred by setTimeout 0 in the source; nothing else is pending on
the single-threaded event loop at that point). -/
def TaskQueue.onTaskFinished (q : TaskQueue) : TaskQueue :=
  TaskQueue.executeNext { q with onGoingTask := q.onGoingTask - 1 }

/-- Invocation of the i-th dispatch's onFinish closure (by the task itself or
by its watchdog): a no-op when already executed, otherwise mark it executed and
run onTaskFinished. -/
def TaskQueue.invokeFinish (q : TaskQueue) (i : Nat) : TaskQueue :=
  match q.tokens[i]? with
  | none => q
  | some tok =>
      if tok.executed then q
      else TaskQueue.onTaskFinished { q with tokens := q.tokens.set i { tok with executed := true } }

/-- TaskQueue.addTask: append (or prepend) the task, then run executeNext. -/
def TaskQueue.addTask (q : TaskQueue) (task : Nat) (atBeginning : Bool) : TaskQueue :=
  let q1 :=
    if atBeginning then { q with queue := task :: q.queue }
    else { q with queue := q.queue ++ [task] }
  q1.executeNext

/-- TaskQueue.reset: drain the queue and zero the counter; dispatched tokens
stay out there. -/
def TaskQueue.reset (q : TaskQueue) : TaskQueue :=
  { q with queue := [], onGoingTask := 0 }

/-- Externally observable events driving a TaskQueue: task submission, a task
invoking its own onFinish, the watchdog timer force-invoking onFinish, reset. -/
inductive TQEvent where
  | add (task : Nat) (atBeginning : Bool)
  | done (i : Nat)
  | watchdogFire (i : Nat)
  | reset
deriving DecidableEq, Repr

/-- One event applied to a TaskQueue.  The watchdog fires the same single-shot
onFinish closure a task's own completion would. -/
def TaskQueue.step (q : TaskQueue) : TQEvent → TaskQueue
  | TQEvent.add t atB => q.addTask t atB
  | TQEvent.done i => q.invokeFinish i
  | TQEvent.watchdogFire i => q.invokeFinish i
  | TQEvent.reset => q.reset

/-- A whole event sequence applied in order. -/
def TaskQueue.run (q : TaskQueue) (events : List TQEvent) : TaskQueue :=
  events.foldl TaskQueue.step q

/-! Supporting lemmas about the TaskQueue dispatch loop. -/

theorem executeNextLoop_onGoing_le (c : Nat) (l : List Nat) :
    ∀ g toks, g ≤ c → (executeNextLoop c g toks l).1 ≤ c := by
  induction l with
  | nil => intro g toks hg; simpa [executeNextLoop] using hg
  | cons t rest ih =>
      intro g toks hg
      by_cases h : g < c
      · simpa [executeNextLoop, h] using ih (g + 1) _ h
      · simpa [executeNextLoop, h] using hg

theorem executeNextLoop_tokens_extends (c : Nat) (l : List Nat) :
    ∀ g toks, ∃ ext, (executeNextLoop c g toks l).2.2 = toks ++ ext := by
  induction l with
  | nil => intro g toks; exact ⟨[], by simp [executeNextLoop]⟩
  | cons t rest ih =>
      intro g toks
      by_cases h : g < c
      · obtain ⟨ext, hext⟩ := ih (g + 1) (toks ++ [{ taskId := t, executed := false }])
        exact ⟨{ taskId := t, executed := false } :: ext, by simp [executeNextLoop, h, hext]⟩
      · exact ⟨[], by simp [executeNextLoop, h]⟩

theorem executeNextLoop_queue_le (c : Nat) (l : List Nat) :
    ∀ g toks, (executeNextLoop c g toks l).2.1.length ≤ l.length := by
  induction l with
  | nil => intro g toks; simp [executeNextLoop]
  | cons t rest ih =>
      intro g toks
      by_cases h : g < c
      · simpa [executeNextLoop, h] using Nat.le_succ_of_le (ih (g + 1) _)
      · simp [executeNextLoop, h]

theorem executeNextLoop_dispatches (c t : Nat) (rest : List Nat) (g : Nat)
    (toks : List TaskToken) (h : g < c) :
    (executeNextLoop c g toks (t :: rest)).2.1.length < (t :: rest).length := by
  simpa [executeNextLoop, h, Nat.lt_succ_iff] using executeNextLoop_queue_le c rest (g + 1) _

theorem executeNext_cocurrent (q : TaskQueue) : q.executeNext.cocurrent = q.cocurrent := rfl

theorem executeNext_onGoing_le (q : TaskQueue) (h : q.onGoingTask ≤ q.cocurrent) :
    q.executeNext.onGoingTask ≤ q.cocurrent :=
  executeNextLoop_onGoing_le q.cocurrent q.queue q.onGoingTask q.tokens h

theorem executeNext_tokens_extends (q : TaskQueue) :
    ∃ ext, q.executeNext.tokens = q.tokens ++ ext :=
  executeNextLoop_tokens_extends q.cocurrent q.queue q.onGoingTask q.tokens

theorem executeNext_queue_lt (q : TaskQueue) (hne : q.queue ≠ [])
    (h : q.onGoingTask < q.cocurrent) :
    q.executeNext.queue.length < q.queue.length := by
  cases hq : q.queue with
  | nil => exact absurd hq hne
  | cons t rest =>
      simpa [TaskQueue.executeNext, hq] using
        executeNextLoop_dispatches q.cocurrent t rest q.onGoingTask q.tokens h

theorem executeNext_queue_empty (q : TaskQueue) (hq : q.queue = []) :
    q.executeNext = { q with queue := [] } := by
  simp [TaskQueue.executeNext, hq, executeNextLoop]

theorem step_cocurrent (q : TaskQueue) (e : TQEvent) : (q.step e).cocurrent = q.cocurrent := by
  cases e with
  | add t atB => cases atB <;> rfl
  | done i =>
      simp only [TaskQueue.step, TaskQueue.invokeFinish]
      cases q.tokens[i]? with
      | none => rfl
      | some tok =>
          by_cases h : tok.executed <;>
            simp [h, TaskQueue.onTaskFinished, executeNext_cocurrent]
  | watchdogFire i =>
      simp only [TaskQueue.step, TaskQueue.invokeFinish]
      cases q.tokens[i]? with
      | none => rfl
      | some tok =>
          by_cases h : tok.executed <;>
            simp [h, TaskQueue.onTaskFinished, executeNext_cocurrent]
  | reset => rfl

theorem step_onGoing_le (q : TaskQueue) (e : TQEvent) (h : q.onGoingTask ≤ q.cocurrent) :
    (q.step e).onGoingTask ≤ (q.step e).cocurrent := by
  rw [step_cocurrent]
  cases e with
  | add t atB =>
      cases atB <;>
        exact executeNext_onGoing_le _ h
  | done i =>
      simp only [TaskQueue.step, TaskQueue.invokeFinish]
      cases q.tokens[i]? with
      | none => exact h
      | some tok =>
          by_cases hex : tok.executed
          · simpa [hex] using h
          · simp only [hex, if_false, Bool.false_eq_true, TaskQueue.onTaskFinished,
              TaskQueue.executeNext]
            exact executeNextLoop_onGoing_le _ _ _ _ (Nat.le_trans (Nat.sub_le _ _) h)
  | watchdogFire i =>
      simp only [TaskQueue.step, TaskQueue.invokeFinish]
      cases q.tokens[i]? with
      | none => exact h
      | some tok =>
          by_cases hex : tok.executed
          · simpa [hex] using h
          · simp only [hex, if_false, Bool.false_eq_true, TaskQueue.onTaskFinished,
              TaskQueue.executeNext]
            exact executeNextLoop_onGoing_le _ _ _ _ (Nat.le_trans (Nat.sub_le _ _) h)
  | reset => exact Nat.zero_le _

theorem run_cocurrent (q : TaskQueue) (events : List TQEvent) :
    (q.run events).cocurrent = q.cocurrent := by
  induction events generalizing q with
  | nil => rfl
  | cons e rest ih =>
      simp only [TaskQueue.run, List.foldl_cons]
      exact (ih (q.step e)).trans (step_cocurrent q e)

theorem run_onGoing_le (q : TaskQueue) (events : List TQEvent)
    (h : q.onGoingTask ≤ q.cocurrent) :
    (q.run events).onGoingTask ≤ (q.run events).cocurrent := by
  induction events generalizing q with
  | nil => exact h
  | cons e rest ih =>
      simp only [TaskQueue.run, List.foldl_cons]
      exact ih (q.step e) (step_onGoing_le q e h)

theorem new_cocurrent_pos (c : Nat) : 1 ≤ (TaskQueue.new c).cocurrent := by
  simp only [TaskQueue.new]
  split <;> omega

theorem invokeFinish_pending (q : TaskQueue) (i : Nat) (tok : TaskToken)
    (h : q.tokens[i]? = some tok) (hex : tok.executed = false) :
    q.invokeFinish i
      = TaskQueue.executeNext
          { cocurrent := q.cocurrent, onGoingTask := q.onGoingTask - 1, queue := q.queue,
            tokens := q.tokens.set i { tok with executed := true } } := by
  simp [TaskQueue.invokeFinish, h, hex, TaskQueue.onTaskFinished]

/-- Claim C2: for every TaskQueue instance with concurrency bound N and every
sequence of addTask calls (with or without front-insertion), completions,
watchdog firings and resets, the onGoingTask counter never exceeds N; and
whenever a running task completes, the freed slot is used to start the next
queued task when one exists (the queue strictly shrinks on that completion). -/
theorem taskQueue_concurrency_invariant (c : Nat) (events : List TQEvent) :
    ((TaskQueue.new c).run events).onGoingTask ≤ ((TaskQueue.new c).run events).cocurrent
    ∧ ∀ i tok,
        ((TaskQueue.new c).run events).tokens[i]? = some tok →
        tok.executed = false →
        ((TaskQueue.new c).run events).queue ≠ [] →
        (((TaskQueue.new c).run events).step (TQEvent.done i)).queue.length
          < ((TaskQueue.new c).run events).queue.length := by
  have hinv : ((TaskQueue.new c).run events).onGoingTask
      ≤ ((TaskQueue.new c).run events).cocurrent :=
    run_onGoing_le _ _ (Nat.zero_le _)
  refine ⟨hinv, ?_⟩
  intro i tok h hex hne
  have hcoc : 1 ≤ ((TaskQueue.new c).run events).cocurrent := by
    rw [run_cocurrent]
    exact new_cocurrent_pos c
  rw [show (((TaskQueue.new c).run events).step (TQEvent.done i))
      = ((TaskQueue.new c).run events).invokeFinish i from rfl,
    invokeFinish_pending _ i tok h hex]
  exact executeNext_queue_lt _ hne (by simp; omega)

/-- Witness for C2 at a concrete trace: a queue with bound 1, one dispatched
task and one queued task; completing the dispatched task dispatches the queued
one. -/
theorem taskQueue_concurrency_invariant_witness :
    (((TaskQueue.new 1).run [TQEvent.add 10 false, TQEvent.add 11 false]).step
        (TQEvent.done 0)).queue.length
      < ((TaskQueue.new 1).run [TQEvent.add 10 false, TQEvent.add 11 false]).queue.length :=
  (taskQueue_concurrency_invariant 1 [TQEvent.add 10 false, TQEvent.add 11 false]).2 0
    { taskId := 10, executed := false } (by decide) (by decide) (by decide)

/-- Claim C9: invoking a dispatched task's done callback more than once is a
no-op: an already-executed token leaves the queue state unchanged, and a second
invocation right after the first changes nothing. -/
theorem doneCallback_idempotent (q : TaskQueue) (i : Nat) :
    (∀ tok, q.tokens[i]? = some tok → tok.executed = true → q.invokeFinish i = q)
    ∧ (q.invokeFinish i).invokeFinish i = q.invokeFinish i := by
  have hdone : ∀ (q' : TaskQueue) (tok' : TaskToken),
      q'.tokens[i]? = some tok' → tok'.executed = true → q'.invokeFinish i = q' := by
    intro q' tok' h' hex'
    simp [TaskQueue.invokeFinish, h', hex']
  refine ⟨fun tok h hex => hdone q tok h hex, ?_⟩
  cases h : q.tokens[i]? with
  | none => simp [TaskQueue.invokeFinish, h]
  | some tok =>
      by_cases hex : tok.executed
      · simp [TaskQueue.invokeFinish, h, hex]
      · have hi : i < q.tokens.length := (List.getElem?_eq_some.mp h).1
        have hex' : tok.executed = false := by
          cases htok : tok.executed
          · rfl
          · exact absurd htok hex
        have h1 := invokeFinish_pending q i tok h hex'
        have h2 : ∃ ext, (q.invokeFinish i).tokens
            = q.tokens.set i { tok with executed := true } ++ ext := by
          rw [h1]
          simpa using executeNext_tokens_extends _
        obtain ⟨ext, hext⟩ := h2
        have h3 : (q.invokeFinish i).tokens[i]? = some { tok with executed := true } := by
          rw [hext, List.getElem?_append_left (by simpa using hi)]
          exact List.getElem?_set_self (by simpa using hi)
        exact hdone _ _ h3 rfl

/-- Witness for C9 at a concrete state: after one task was dispatched and has
completed, invoking its done callback again changes nothing. -/
theorem doneCallback_idempotent_witness :
    ((TaskQueue.new 1).run [TQEvent.add 10 false, TQEvent.done 0]).invokeFinish 0
      = (TaskQueue.new 1).run [TQEvent.add 10 false, TQEvent.done 0] :=
  (doneCallback_idempotent ((TaskQueue.new 1).run [TQEvent.add 10 false, TQEvent.done 0]) 0).1
    { taskId := 10, executed := true } (by decide) (by decide)

/-- Claim C8: a dispatched task that never calls done is force-completed by the
watchdog armed at dispatch time (300000 ms): the watchdog firing is exactly an
invocation of the task's single-shot onFinish, it marks the token executed,
reclaims the concurrency slot (the counter drops by one when the queue is
empty) and dispatches the next queued task when one exists. -/
theorem watchdog_force_completion (c : Nat) (events : List TQEvent) (i : Nat) (tok : TaskToken)
    (h : ((TaskQueue.new c).run events).tokens[i]? = some tok)
    (hex : tok.executed = false) :
    ((TaskQueue.new c).run events).step (TQEvent.watchdogFire i)
        = ((TaskQueue.new c).run events).step (TQEvent.done i)
    ∧ (((TaskQueue.new c).run events).step (TQEvent.watchdogFire i)).tokens[i]?
        = some { tok with executed := true }
    ∧ (((TaskQueue.new c).run events).queue = [] →
        (((TaskQueue.new c).run events).step (TQEvent.watchdogFire i)).onGoingTask
          = ((TaskQueue.new c).run events).onGoingTask - 1)
    ∧ (((TaskQueue.new c).run events).queue ≠ [] →
        (((TaskQueue.new c).run events).step (TQEvent.watchdogFire i)).queue.length
          < ((TaskQueue.new c).run events).queue.length)
    ∧ watchdogTimeoutMs = 300000 := by
  have hq : ((TaskQueue.new c).run events).step (TQEvent.watchdogFire i)
      = ((TaskQueue.new c).run events).invokeFinish i := rfl
  have hi : i < ((TaskQueue.new c).run events).tokens.length := (List.getElem?_eq_some.mp h).1
  have h1 := invokeFinish_pending ((TaskQueue.new c).run events) i tok h hex
  refine ⟨rfl, ?_, ?_, ?_, rfl⟩
  · obtain ⟨ext, hext⟩ : ∃ ext, (((TaskQueue.new c).run events).invokeFinish i).tokens
        = ((TaskQueue.new c).run events).tokens.set i { tok with executed := true } ++ ext := by
      rw [h1]
      simpa using executeNext_tokens_extends _
    rw [hq, hext, List.getElem?_append_left (by simpa using hi)]
    exact List.getElem?_set_self (by simpa using hi)
  · intro hempty
    rw [hq, h1, executeNext_queue_empty _ (by simpa using hempty)]
  · intro hne
    have hinv : ((TaskQueue.new c).run events).onGoingTask
        ≤ ((TaskQueue.new c).run events).cocurrent :=
      run_onGoing_le _ _ (Nat.zero_le _)
    have hcoc : 1 ≤ ((TaskQueue.new c).run events).cocurrent := by
      rw [run_cocurrent]
      exact new_cocurrent_pos c
    rw [hq, h1]
    exact executeNext_queue_lt _ hne (by simp; omega)

/-- Witness for C8 at a concrete trace: one dispatched task with an empty
queue; the watchdog firing reclaims the slot, dropping the counter to zero. -/
theorem watchdog_force_completion_witness :
    (((TaskQueue.new 1).run [TQEvent.add 10 false]).step (TQEvent.watchdogFire 0)).onGoingTask
      = ((TaskQueue.new 1).run [TQEvent.add 10 false]).onGoingTask - 1 :=
  ((watchdog_force_completion 1 [TQEvent.add 10 false] 0 { taskId := 10, executed := false }
      (by decide) (by decide)).2.2.1) (by decide)

/-! Supporting lemmas about association lists with object-key semantics. -/

theorem hasKey_eq_false_iff {α : Type} (m : List (String × α)) (k : String) :
    hasKey m k = false ↔ ∀ kv ∈ m, kv.1 ≠ k := by
  unfold hasKey
  rw [List.any_eq_false]
  constructor
  · intro h kv hkv
    simpa using h kv hkv
  · intro h kv hkv
    simpa using h kv hkv

theorem hasKey_iff_mem_keys {α : Type} (m : List (String × α)) (k : String) :
    hasKey m k = true ↔ k ∈ m.map (fun kv => kv.1) := by
  unfold hasKey
  rw [List.any_eq_true]
  constructor
  · rintro ⟨kv, hkv, hk⟩
    simp only [decide_eq_true_eq] at hk
    exact hk ▸ List.mem_map_of_mem _ hkv
  · intro h
    rw [List.mem_map] at h
    obtain ⟨kv, hkv, hk⟩ := h
    exact ⟨kv, hkv, by simp [hk]⟩

theorem lookupAssoc_isSome_hasKey {α : Type} (m : List (String × α)) (k : String) (v : α)
    (h : lookupAssoc m k = some v) : hasKey m k = true := by
  induction m with
  | nil => simp [lookupAssoc] at h
  | cons kv rest ih =>
      by_cases hk : kv.1 = k
      · simp [hasKey, hk]
      · simp only [lookupAssoc, hk, if_false] at h
        simp [hasKey]
        right
        simpa [hasKey] using ih h

theorem lookupAssoc_append_of_forall_ne {α : Type} (m : List (String × α)) (k : String) (v : α)
    (h : ∀ kv ∈ m, kv.1 ≠ k) : lookupAssoc (m ++ [(k, v)]) k = some v := by
  induction m with
  | nil => simp [lookupAssoc]
  | cons kv rest ih =>
      have hk : kv.1 ≠ k := h kv (by simp)
      simp only [List.cons_append, lookupAssoc, hk, if_false]
      exact ih (fun x hx => h x (by simp [hx]))

theorem filter_key_eq_nil {α : Type} (m : List (String × α)) (k : String)
    (h : ∀ kv ∈ m, kv.1 ≠ k) : m.filter (fun kv => kv.1 = k) = [] := by
  rw [List.filter_eq_nil_iff]
  intro kv hkv
  simpa using h kv hkv

theorem filter_key_single {α : Type} (m : List (String × α)) (k : String) (v : α)
    (hnd : (m.map (fun kv => kv.1)).Nodup) (hl : lookupAssoc m k = some v) :
    m.filter (fun kv => kv.1 = k) = [(k, v)] := by
  induction m with
  | nil => simp [lookupAssoc] at hl
  | cons kv rest ih =>
      rw [List.map_cons, List.nodup_cons] at hnd
      by_cases hk : kv.1 = k
      · simp only [lookupAssoc, hk, if_true] at hl
        have hrest : rest.filter (fun x => x.1 = k) = [] := by
          refine filter_key_eq_nil rest k (fun x hx hxk => ?_)
          exact hnd.1 (by rw [hk, ← hxk]; exact List.mem_map_of_mem _ hx)
        have hkv : kv = (k, v) := by
          obtain ⟨k0, v0⟩ := kv
          simp only at hk
          simp only [Option.some.injEq] at hl
          rw [hk, hl]
        simp [List.filter_cons, hk, hrest, hkv]
      · simp only [lookupAssoc, hk, if_false] at hl
        simp [List.filter_cons, hk]
        exact ih hnd.2 hl

theorem map_replace_of_forall_ne {α : Type} (m : List (String × α)) (k : String) (v : α)
    (h : ∀ kv ∈ m, kv.1 ≠ k) :
    m.map (fun kv => if kv.1 = k then (k, v) else kv) = m := by
  induction m with
  | nil => rfl
  | cons kv rest ih =>
      obtain ⟨k0, v0⟩ := kv
      have hk : k0 ≠ k := by simpa using h (k0, v0) (by simp)
      rw [List.map_cons, if_neg hk, ih (fun x hx => h x (by simp [hx]))]

theorem keys_replaceAll {α : Type} (m : List (String × α)) (k : String) (v : α) :
    (m.map (fun kv => if kv.1 = k then (k, v) else kv)).map (fun kv => kv.1)
      = m.map (fun kv => kv.1) := by
  induction m with
  | nil => rfl
  | cons kv rest ih =>
      obtain ⟨k0, v0⟩ := kv
      by_cases hk : k0 = k
      · rw [List.map_cons, if_pos hk, List.map_cons, List.map_cons, ih, hk]
      · rw [List.map_cons, if_neg hk, List.map_cons, List.map_cons, ih]

theorem lookupAssoc_replaceAll_self {α : Type} (m : List (String × α)) (k : String) (v : α)
    (hk : hasKey m k = true) :
    lookupAssoc (m.map (fun kv => if kv.1 = k then (k, v) else kv)) k = some v := by
  induction m with
  | nil => simp [hasKey] at hk
  | cons kv rest ih =>
      obtain ⟨k0, v0⟩ := kv
      by_cases hkv : k0 = k
      · rw [List.map_cons, if_pos hkv]
        simp [lookupAssoc]
      · rw [List.map_cons, if_neg hkv]
        have hk' : hasKey rest k = true := by
          simp only [hasKey, List.any_cons, Bool.or_eq_true, decide_eq_true_eq] at hk
          rcases hk with hk | hk
          · exact absurd hk hkv
          · simpa [hasKey] using hk
        simp only [lookupAssoc, hkv, if_false]
        exact ih hk'

theorem filter_replaceAll {α : Type} (m : List (String × α)) (k : String) (v : α)
    (hnd : (m.map (fun kv => kv.1)).Nodup) (hk : hasKey m k = true) :
    (m.map (fun kv => if kv.1 = k then (k, v) else kv)).filter (fun kv => kv.1 = k)
      = [(k, v)] := by
  refine filter_key_single _ k v ?_ (lookupAssoc_replaceAll_self m k v hk)
  rw [keys_replaceAll]
  exact hnd

theorem mem_insertAssoc {α : Type} (m : List (String × α)) (k : String) (v : α)
    (kv : String × α) (h : kv ∈ insertAssoc m k v) : kv = (k, v) ∨ kv ∈ m := by
  by_cases hkm : hasKey m k = true
  · rw [insertAssoc, if_pos hkm] at h
    rw [List.mem_map] at h
    obtain ⟨x, hx, hxe⟩ := h
    by_cases hxk : x.1 = k
    · rw [if_pos hxk] at hxe
      exact Or.inl hxe.symm
    · rw [if_neg hxk] at hxe
      exact Or.inr (hxe ▸ hx)
  · rw [insertAssoc, if_neg hkm, List.mem_append, List.mem_singleton] at h
    rcases h with h | h
    · exact Or.inr h
    · exact Or.inl h

/-! Post-state lemmas for RequestPool.addRequest, covering the window-change,
fresh-device and existing-device branches. -/

/-- The representation invariant every JavaScript RequestPool state satisfies:
object keys are unique, and each property list is duplicate-free because every
push is guarded by an includes test. -/
def RequestPool.WF (p : RequestPool) : Prop :=
  (p.requestedData.map (fun kv => kv.1)).Nodup ∧ ∀ kv ∈ p.requestedData, kv.2.Nodup

/-- How many times the (device, property) pair is pending in the pool. -/
def RequestPool.pairCount (p : RequestPool) (d pr : String) : Nat :=
  ((p.requestedData.filter (fun kv => kv.1 = d)).map (fun kv => kv.2.count pr)).sum

/-- N repeated addRequest calls with one and the same triple. -/
def RequestPool.addRequestTimes (p : RequestPool) (d pr : String) (w : DateTimeSpan) :
    Nat → RequestPool
  | 0 => p
  | n + 1 => (p.addRequest d pr w).addRequestTimes d pr w n

theorem hasKey_append_single {α : Type} (m : List (String × α)) (k : String) (v : α) :
    hasKey (m ++ [(k, v)]) k = true := by
  simp [hasKey]

theorem hasKey_insertAssoc {α : Type} (m : List (String × α)) (k : String) (v : α) :
    hasKey (insertAssoc m k v) k = true := by
  by_cases hkm : hasKey m k = true
  · rw [insertAssoc, if_pos hkm, hasKey_iff_mem_keys, keys_replaceAll]
    exact (hasKey_iff_mem_keys m k).mp hkm
  · rw [insertAssoc, if_neg hkm, hasKey_iff_mem_keys]
    simp

theorem hasKey_lookupAssoc_isSome {α : Type} (m : List (String × α)) (k : String)
    (h : hasKey m k = true) : ∃ v, lookupAssoc m k = some v := by
  induction m with
  | nil => simp [hasKey] at h
  | cons kv rest ih =>
      obtain ⟨k0, v0⟩ := kv
      by_cases hk : k0 = k
      · exact ⟨v0, by simp [lookupAssoc, hk]⟩
      · simp only [hasKey, List.any_cons, Bool.or_eq_true, decide_eq_true_eq] at h
        rcases h with h | h
        · exact absurd h hk
        · obtain ⟨v, hv⟩ := ih (by simpa [hasKey] using h)
          exact ⟨v, by simpa [lookupAssoc, hk] using hv⟩

theorem ensureKey_hasKey (m : List (String × List String)) (d : String) :
    hasKey (ensureKey m d) d = true := by
  unfold ensureKey
  by_cases hkm : hasKey m d = true
  · rwa [if_pos hkm]
  · rw [if_neg hkm]
    exact hasKey_append_single m d []

theorem pushIfAbsent_hasKey (m : List (String × List String)) (d pr : String)
    (h : hasKey m d = true) : hasKey (pushIfAbsent m d pr) d = true := by
  unfold pushIfAbsent
  by_cases hc : (((lookupAssoc m d).getD []).contains pr) = true
  · rwa [if_pos hc]
  · rw [if_neg hc]
    exact hasKey_insertAssoc m d _

theorem pushIfAbsent_lookup_contains (m : List (String × List String)) (d pr : String)
    (h : hasKey m d = true) :
    ∃ props, lookupAssoc (pushIfAbsent m d pr) d = some props ∧ props.contains pr = true := by
  obtain ⟨props0, hl0⟩ := hasKey_lookupAssoc_isSome m d h
  simp only [pushIfAbsent, hl0, Option.getD_some]
  by_cases hc : props0.contains pr = true
  · rw [if_pos hc]
    exact ⟨props0, hl0, hc⟩
  · rw [if_neg hc]
    refine ⟨props0 ++ [pr], ?_, by simp⟩
    rw [insertAssoc, if_pos h]
    exact lookupAssoc_replaceAll_self m d _ h

theorem addPair_lookup_contains (m : List (String × List String)) (d pr : String) :
    ∃ props, lookupAssoc (addPair m d pr) d = some props ∧ props.contains pr = true :=
  pushIfAbsent_lookup_contains (ensureKey m d) d pr (ensureKey_hasKey m d)

theorem addPair_hasKey (m : List (String × List String)) (d pr : String) :
    hasKey (addPair m d pr) d = true :=
  pushIfAbsent_hasKey (ensureKey m d) d pr (ensureKey_hasKey m d)

theorem pushIfAbsent_saturated (m : List (String × List String)) (d pr : String)
    (props : List String) (hl : lookupAssoc m d = some props)
    (hc : props.contains pr = true) : pushIfAbsent m d pr = m := by
  simp only [pushIfAbsent, hl, Option.getD_some]
  rw [if_pos hc]

theorem addPair_saturated (m : List (String × List String)) (d pr : String)
    (props : List String) (hl : lookupAssoc m d = some props)
    (hc : props.contains pr = true) : addPair m d pr = m := by
  have hk : hasKey m d = true := lookupAssoc_isSome_hasKey m d props hl
  rw [addPair, ensureKey, if_pos hk]
  exact pushIfAbsent_saturated m d pr props hl hc

theorem addRequest_throttle (p : RequestPool) (d pr : String) (w : DateTimeSpan) :
    (p.addRequest d pr w).throttleTimerActive = true := rfl

theorem addRequest_requestedData (p : RequestPool) (d pr : String) (w : DateTimeSpan) :
    (p.addRequest d pr w).requestedData
      = addPair (match p.dateTimeSpan with
                 | none => []
                 | some cur =>
                     if cur.hashCode ≠ w.hashCode then [] else p.requestedData) d pr := by
  cases hs : p.dateTimeSpan with
  | none => simp [RequestPool.addRequest, hs]
  | some cur =>
      by_cases hcur : cur.hashCode ≠ w.hashCode <;>
        simp [RequestPool.addRequest, hs, hcur]

theorem addRequest_hash (p : RequestPool) (d pr : String) (w : DateTimeSpan) :
    ∃ v, (p.addRequest d pr w).dateTimeSpan = some v ∧ v.hashCode = w.hashCode := by
  cases hs : p.dateTimeSpan with
  | none => exact ⟨w, by simp [RequestPool.addRequest, hs], rfl⟩
  | some cur =>
      by_cases hcur : cur.hashCode = w.hashCode
      · exact ⟨cur, by simp [RequestPool.addRequest, hs, hcur], hcur⟩
      · exact ⟨w, by simp [RequestPool.addRequest, hs, hcur], rfl⟩

theorem addRequest_of_saturated (p : RequestPool) (d pr : String) (w v : DateTimeSpan)
    (props : List String)
    (hv : p.dateTimeSpan = some v) (hvh : v.hashCode = w.hashCode)
    (hlp : lookupAssoc p.requestedData d = some props) (hcont : props.contains pr = true)
    (ht : p.throttleTimerActive = true) :
    p.addRequest d pr w = p := by
  obtain ⟨s, rd, t⟩ := p
  simp only at hv hlp ht
  subst hv ht
  simp only [RequestPool.addRequest, hvh, ne_eq, not_true_eq_false, if_false, ite_false]
  rw [addPair_saturated rd d pr props hlp hcont]

theorem addRequest_idem (p : RequestPool) (d pr : String) (w : DateTimeSpan) :
    (p.addRequest d pr w).addRequest d pr w = p.addRequest d pr w := by
  obtain ⟨v, hv, hvh⟩ := addRequest_hash p d pr w
  obtain ⟨props, hlp, hcont⟩ : ∃ props,
      lookupAssoc (p.addRequest d pr w).requestedData d = some props
      ∧ props.contains pr = true := by
    rw [addRequest_requestedData]
    exact addPair_lookup_contains _ d pr
  exact addRequest_of_saturated _ d pr w v props hv hvh hlp hcont
    (addRequest_throttle p d pr w)

theorem lookupAssoc_mem {α : Type} (m : List (String × α)) (k : String) (v : α)
    (h : lookupAssoc m k = some v) : (k, v) ∈ m := by
  induction m with
  | nil => simp [lookupAssoc] at h
  | cons kv rest ih =>
      obtain ⟨k0, v0⟩ := kv
      by_cases hk : k0 = k
      · simp only [lookupAssoc, hk, if_true, Option.some.injEq] at h
        subst hk h
        simp
      · simp only [lookupAssoc, hk, if_false] at h
        exact List.mem_cons_of_mem _ (ih h)

theorem addPair_nil (d pr : String) : addPair [] d pr = [(d, [pr])] := by
  simp [addPair, ensureKey, pushIfAbsent, hasKey, lookupAssoc, insertAssoc]

theorem addPair_filter (m : List (String × List String)) (d pr : String)
    (hnd : (m.map (fun kv => kv.1)).Nodup) (hvals : ∀ kv ∈ m, kv.2.Nodup) :
    ∃ props, (addPair m d pr).filter (fun kv => kv.1 = d) = [(d, props)]
      ∧ props.count pr = 1 := by
  by_cases hkm : hasKey m d = true
  · rw [addPair, ensureKey, if_pos hkm]
    obtain ⟨props0, hl0⟩ := hasKey_lookupAssoc_isSome m d hkm
    have hmem : (d, props0) ∈ m := lookupAssoc_mem m d props0 hl0
    have hnd0 : props0.Nodup := hvals (d, props0) hmem
    simp only [pushIfAbsent, hl0, Option.getD_some]
    by_cases hc : props0.contains pr = true
    · rw [if_pos hc]
      exact ⟨props0, filter_key_single m d props0 hnd hl0,
        List.count_eq_one_of_mem hnd0 (List.mem_of_elem_eq_true hc)⟩
    · rw [if_neg hc]
      refine ⟨props0 ++ [pr], ?_, ?_⟩
      · rw [insertAssoc, if_pos hkm]
        exact filter_replaceAll m d _ hnd hkm
      · have hnotmem : pr ∉ props0 := fun hmem0 => hc (by simpa using hmem0)
        simp [List.count_append, List.count_eq_zero.mpr hnotmem]
  · rw [addPair, ensureKey, if_neg hkm]
    have hforall : ∀ kv ∈ m, kv.1 ≠ d := by
      rw [← hasKey_eq_false_iff]
      exact Bool.not_eq_true _ ▸ (by simpa using hkm)
    have hl1 : lookupAssoc (m ++ [(d, [])]) d = some [] :=
      lookupAssoc_append_of_forall_ne m d [] hforall
    simp only [pushIfAbsent, hl1, Option.getD_some, List.contains_nil, List.nil_append]
    rw [if_neg (by simp)]
    refine ⟨[pr], ?_, by simp⟩
    rw [insertAssoc, if_pos (hasKey_append_single m d [])]
    refine filter_replaceAll (m ++ [(d, [])]) d [pr] ?_ (hasKey_append_single m d [])
    rw [List.map_append, List.nodup_append]
    refine ⟨hnd, by simp, ?_⟩
    intro x hx
    simp only [List.map_cons, List.map_nil, List.mem_singleton]
    rw [List.mem_map] at hx
    obtain ⟨kv, hkv, hke⟩ := hx
    intro hxd
    exact hforall kv hkv (by rw [hke, hxd])

/-- Claim C4: calling addRequest with a window whose canonical key differs from
the active one discards the entire pending set and adopts the new window before
recording the new pair: the resulting pending set holds exactly the new pair. -/
theorem addRequest_window_change (p : RequestPool) (d pr : String) (w1 w2 : DateTimeSpan)
    (hw : p.dateTimeSpan = some w1) (hne : w1.hashCode ≠ w2.hashCode) :
    (p.addRequest d pr w2).dateTimeSpan = some w2
    ∧ (p.addRequest d pr w2).requestedData = [(d, [pr])] := by
  constructor
  · simp [RequestPool.addRequest, hw, hne]
  · rw [addRequest_requestedData]
    simp only [hw]
    rw [if_pos hne, addPair_nil]

/-- Witness for C4 at concrete data: a pool pending one pair for window
0..1 receives a request for window 0..2; the old pair is gone. -/
theorem addRequest_window_change_witness :
    ((RequestPool.mk (some (DateTimeSpan.mk 0 1 "P1D")) [("x", ["y"])] true).addRequest
        "d" "t" (DateTimeSpan.mk 0 2 "P1D")).dateTimeSpan = some (DateTimeSpan.mk 0 2 "P1D")
    ∧ ((RequestPool.mk (some (DateTimeSpan.mk 0 1 "P1D")) [("x", ["y"])] true).addRequest
        "d" "t" (DateTimeSpan.mk 0 2 "P1D")).requestedData = [("d", ["t"])] :=
  addRequest_window_change _ "d" "t" (DateTimeSpan.mk 0 1 "P1D") (DateTimeSpan.mk 0 2 "P1D")
    rfl (by decide)

theorem addRequestTimes_from_once (p : RequestPool) (d pr : String) (w : DateTimeSpan) :
    ∀ k, (p.addRequest d pr w).addRequestTimes d pr w k = p.addRequest d pr w := by
  intro k
  induction k generalizing p with
  | zero => rfl
  | succ k ih =>
      rw [RequestPool.addRequestTimes, addRequest_idem]
      exact ih p

theorem addRequest_filter (p : RequestPool) (d pr : String) (w : DateTimeSpan)
    (hwf : p.WF) :
    ∃ props, (p.addRequest d pr w).requestedData.filter (fun kv => kv.1 = d) = [(d, props)]
      ∧ props.count pr = 1 := by
  rw [addRequest_requestedData]
  cases hs : p.dateTimeSpan with
  | none =>
      simp only
      exact addPair_filter [] d pr (by simp) (by simp)
  | some cur =>
      simp only
      by_cases hcur : cur.hashCode ≠ w.hashCode
      · rw [if_pos hcur]
        exact addPair_filter [] d pr (by simp) (by simp)
      · rw [if_neg hcur]
        exact addPair_filter p.requestedData d pr hwf.1 hwf.2

/-- Claim C5: calling addRequest N times (N ≥ 1) with the same triple collapses
to a single addRequest; afterwards the pair is pending exactly once, and the
flush yields exactly one query for the device, requesting the property exactly
once.  The well-formedness hypothesis is the JavaScript representation
invariant: object keys are unique and each pushed list is duplicate-free. -/
theorem addRequest_collapses (p : RequestPool) (d pr : String) (w : DateTimeSpan) (n : Nat)
    (hn : 1 ≤ n) (hwf : p.WF) :
    p.addRequestTimes d pr w n = p.addRequest d pr w
    ∧ (p.addRequest d pr w).pairCount d pr = 1
    ∧ ∀ queries p2, (p.addRequest d pr w).beginProcessRequests = some (queries, p2) →
        (queries.filter (fun q => q.deviceId = d)).map (fun q => q.propertyIds.count pr)
          = [1] := by
  obtain ⟨props, hfil, hcount⟩ := addRequest_filter p d pr w hwf
  refine ⟨?_, ?_, ?_⟩
  · obtain ⟨k, rfl⟩ : ∃ k, n = k + 1 := ⟨n - 1, by omega⟩
    rw [RequestPool.addRequestTimes, addRequestTimes_from_once]
  · rw [RequestPool.pairCount, hfil]
    simp [hcount]
  · intro queries p2 hflush
    obtain ⟨v, hv, _⟩ := addRequest_hash p d pr w
    simp only [RequestPool.beginProcessRequests, hv, Option.some.injEq, Prod.mk.injEq] at hflush
    rw [← hflush.1]
    rw [List.filter_map]
    rw [show ((fun q : QueryParam => decide (q.deviceId = d))
          ∘ (fun kv : String × List String => QueryParam.mk v kv.1 kv.2))
        = (fun kv : String × List String => decide (kv.1 = d)) from rfl]
    rw [hfil]
    simp [hcount]

/-- Witness for C5 at concrete data: three identical requests on a fresh pool
equal one, the pair is pending once, and the flush yields one query counting
the property once. -/
theorem addRequest_collapses_witness :
    RequestPool.new.addRequestTimes "d1" "temp" (DateTimeSpan.mk 1 2 "P1D") 3
        = RequestPool.new.addRequest "d1" "temp" (DateTimeSpan.mk 1 2 "P1D")
    ∧ (RequestPool.new.addRequest "d1" "temp" (DateTimeSpan.mk 1 2 "P1D")).pairCount
        "d1" "temp" = 1 := by
  have h := addRequest_collapses RequestPool.new "d1" "temp" (DateTimeSpan.mk 1 2 "P1D") 3
    (by decide) (by constructor <;> simp [RequestPool.new])
  exact ⟨h.1, h.2.1⟩

theorem lookupAssoc_none_forall_ne {α : Type} (m : List (String × α)) (k : String)
    (h : lookupAssoc m k = none) : ∀ kv ∈ m, kv.1 ≠ k := by
  intro kv hkv hke
  have hk : hasKey m k = true := by
    rw [hasKey_iff_mem_keys]
    exact hke ▸ List.mem_map_of_mem _ hkv
  obtain ⟨v, hv⟩ := hasKey_lookupAssoc_isSome m k hk
  rw [h] at hv
  exact Option.noConfusion hv

/-- Claim C6: getAggregatedValues returns exactly what the cache path (device
record, property record, TimeWindow key) holds: the cached AggregatedValues
when one exists, with no addRequest call; otherwise undefined, with exactly one
addRequest call carrying the same triple.  Either way it is a total function of
the state, returning immediately. -/
theorem getAggregatedValues_spec (s : DataStore) (d pr : String) (w : DateTimeSpan) :
    (s.getAggregatedValues d pr w).1 = s.cacheLookup d pr w
    ∧ (∀ av, s.cacheLookup d pr w = some av → (s.getAggregatedValues d pr w).2.2 = [])
    ∧ (s.cacheLookup d pr w = none →
        (s.getAggregatedValues d pr w).2.2 = [(d, pr, w)]) := by
  cases hdd : lookupAssoc s.deviceData d with
  | none =>
      refine ⟨by simp [DataStore.getAggregatedValues, DataStore.cacheLookup, hdd], ?_, ?_⟩
      · intro av hav
        rw [DataStore.cacheLookup] at hav
        simp [hdd] at hav
      · intro _
        simp [DataStore.getAggregatedValues, hdd]
  | some dd =>
      cases hpd : lookupAssoc dd.propData pr with
      | none =>
          have hfresh : (dd.getPropertyData pr).1.getAggregatedValues w = none := by
            simp [DeviceData.getPropertyData, hpd, PropertyData.new,
              PropertyData.getAggregatedValues, lookupAssoc]
          refine ⟨?_, ?_, ?_⟩
          · simp [DataStore.getAggregatedValues, DataStore.cacheLookup, hdd, hpd,
              DeviceData.getPropertyData, PropertyData.new, PropertyData.getAggregatedValues,
              lookupAssoc]
          · intro av hav
            rw [DataStore.cacheLookup] at hav
            simp [hdd, hpd] at hav
          · intro _
            simp [DataStore.getAggregatedValues, hdd, hpd, DeviceData.getPropertyData,
              PropertyData.new, PropertyData.getAggregatedValues, lookupAssoc]
      | some pd =>
          have hget : dd.getPropertyData pr = (pd, dd) := by
            simp [DeviceData.getPropertyData, hpd]
          cases hav : pd.getAggregatedValues w with
          | none =>
              refine ⟨?_, ?_, ?_⟩
              · simp [DataStore.getAggregatedValues, DataStore.cacheLookup, hdd, hpd, hget, hav]
              · intro av2 hav2
                rw [DataStore.cacheLookup] at hav2
                simp [hdd, hpd, hav] at hav2
              · intro _
                simp [DataStore.getAggregatedValues, hdd, hget, hav]
          | some av =>
              refine ⟨?_, ?_, ?_⟩
              · simp [DataStore.getAggregatedValues, DataStore.cacheLookup, hdd, hpd, hget, hav]
              · intro av2 _
                simp [DataStore.getAggregatedValues, hdd, hget, hav]
              · intro hnone
                rw [DataStore.cacheLookup] at hnone
                simp [hdd, hpd, hav] at hnone

/-- Witness for C6 at concrete data: on the empty cache the result is absent
and exactly one addRequest call with the same triple is made. -/
theorem getAggregatedValues_spec_witness :
    (DataStore.new.getAggregatedValues "d1" "temp" (DateTimeSpan.mk 1 2 "P1D")).1 = none
    ∧ (DataStore.new.getAggregatedValues "d1" "temp" (DateTimeSpan.mk 1 2 "P1D")).2.2
        = [("d1", "temp", DateTimeSpan.mk 1 2 "P1D")] := by
  have h := getAggregatedValues_spec DataStore.new "d1" "temp" (DateTimeSpan.mk 1 2 "P1D")
  exact ⟨by rw [h.1]; rfl, h.2.2 rfl⟩

/-- Counterexample to claim C7 as stated: when no adapter is registered for the
queried device, fetchDeviceData resolves null without ingesting anything into
the cache, yet the QueryCompleted event is still broadcast — an event for a
query whose data was never ingested. -/
theorem queryCompleted_counterexample :
    (runRequestTask DataStore.new (QueryParam.mk (DateTimeSpan.mk 1 2 "P1D") "d1" ["temp"])
        FetchOutcome.noAdapter).2
      = [QueryCompletedEventArgs.mk (QueryParam.mk (DateTimeSpan.mk 1 2 "P1D") "d1" ["temp"])]
    ∧ (runRequestTask DataStore.new (QueryParam.mk (DateTimeSpan.mk 1 2 "P1D") "d1" ["temp"])
        FetchOutcome.noAdapter).1 = DataStore.new :=
  ⟨rfl, rfl⟩

/-- Claim C7 amended: the QueryCompleted event, carrying the originating query,
is broadcast exactly when the fetchDeviceData promise resolves.  After an
adapter fetch succeeds, the event is emitted once and only with the returned
data already merged into the cache (the device entry is present in the store
the event is paired with); on fetch failure nothing is emitted and the cache is
untouched; but when no adapter is found the promise resolves null and the event
is emitted without anything having been ingested. -/
theorem queryCompleted_amended (s : DataStore) (q : QueryParam) :
    (∀ dd, runRequestTask s q (FetchOutcome.success dd)
          = ((s.fetchDeviceData q (FetchOutcome.success dd)).2, [QueryCompletedEventArgs.mk q])
        ∧ (lookupAssoc (s.fetchDeviceData q (FetchOutcome.success dd)).2.deviceData
            dd.deviceId).isSome = true)
    ∧ runRequestTask s q FetchOutcome.failure = (s, [])
    ∧ runRequestTask s q FetchOutcome.noAdapter = (s, [QueryCompletedEventArgs.mk q]) := by
  refine ⟨?_, rfl, rfl⟩
  intro dd
  constructor
  · cases hl : lookupAssoc s.deviceData dd.deviceId <;>
      simp [runRequestTask, DataStore.fetchDeviceData, hl]
  · cases hl : lookupAssoc s.deviceData dd.deviceId with
    | some existing =>
        have hk : hasKey s.deviceData dd.deviceId = true :=
          lookupAssoc_isSome_hasKey _ _ _ hl
        simp only [DataStore.fetchDeviceData, hl]
        rw [insertAssoc, if_pos hk]
        rw [lookupAssoc_replaceAll_self _ _ _ hk]
        rfl
    | none =>
        simp only [DataStore.fetchDeviceData, hl]
        rw [lookupAssoc_append_of_forall_ne _ _ _ (lookupAssoc_none_forall_ne _ _ hl)]
        rfl

/-- Witness for the amended C7 at concrete data: a successful fetch merges the
device entry and then emits exactly one event. -/
theorem queryCompleted_amended_witness :
    (lookupAssoc (DataStore.new.fetchDeviceData
        (QueryParam.mk (DateTimeSpan.mk 1 2 "P1D") "d1" ["temp"])
        (FetchOutcome.success (DeviceData.new "d1"))).2.deviceData "d1").isSome = true :=
  ((queryCompleted_amended DataStore.new
      (QueryParam.mk (DateTimeSpan.mk 1 2 "P1D") "d1" ["temp"])).1 (DeviceData.new "d1")).2

/-- Claim C3: for a query whose fetch always fails, the catch branch re-submits
the task — after the fixed 3000 ms delay — exactly while the retry counter is
below 4, so exactly 4 retry submissions happen and never a fifth; afterwards
the query is dropped silently: no event is emitted and the cache is exactly the
original one, with nothing merged for the query's keys. -/
theorem retry_exhaustion (s : DataStore) (q : QueryParam) :
    (∀ k, (retryCheck k).1 = true ↔ k < 4)
    ∧ retryDelayMs = 3000
    ∧ runUntilRetriesExhausted s q 0 = (s, [], 4) := by
  refine ⟨fun k => by simp [retryCheck], rfl, ?_⟩
  simp [runUntilRetriesExhausted, runRequestTask, DataStore.fetchDeviceData, retryCheck]

/-! Supporting lemmas for the PropertyData merge rule. -/

theorem hasKey_of_not (b : Bool) (h : ¬b = true) : b = false := by
  cases b
  · rfl
  · exact absurd rfl h

theorem lookupAssoc_replaceAll_ne {α : Type} (m : List (String × α)) (k k' : String) (v : α)
    (hne : k' ≠ k) :
    lookupAssoc (m.map (fun kv => if kv.1 = k then (k, v) else kv)) k' = lookupAssoc m k' := by
  induction m with
  | nil => rfl
  | cons kv rest ih =>
      obtain ⟨k0, v0⟩ := kv
      by_cases hk : k0 = k
      · rw [List.map_cons, if_pos hk]
        simp only [lookupAssoc]
        rw [if_neg (fun he => hne he.symm), if_neg (by rw [hk]; exact fun he => hne he.symm)]
        exact ih
      · rw [List.map_cons, if_neg hk]
        simp only [lookupAssoc]
        by_cases h0 : k0 = k'
        · rw [if_pos h0, if_pos h0]
        · rw [if_neg h0, if_neg h0]
          exact ih

theorem lookupAssoc_append_ne {α : Type} (m : List (String × α)) (k k' : String) (v : α)
    (hne : k' ≠ k) :
    lookupAssoc (m ++ [(k, v)]) k' = lookupAssoc m k' := by
  induction m with
  | nil =>
      rw [List.nil_append]
      simp only [lookupAssoc]
      rw [if_neg (fun he => hne he.symm)]
  | cons kv rest ih =>
      obtain ⟨k0, v0⟩ := kv
      simp only [List.cons_append, lookupAssoc]
      by_cases h0 : k0 = k'
      · rw [if_pos h0, if_pos h0]
      · rw [if_neg h0, if_neg h0]
        exact ih

theorem lookupAssoc_insertAssoc_self {α : Type} (m : List (String × α)) (k : String) (v : α) :
    lookupAssoc (insertAssoc m k v) k = some v := by
  by_cases hk : hasKey m k = true
  · rw [insertAssoc, if_pos hk]
    exact lookupAssoc_replaceAll_self m k v hk
  · rw [insertAssoc, if_neg hk]
    exact lookupAssoc_append_of_forall_ne m k v
      ((hasKey_eq_false_iff m k).mp (hasKey_of_not _ hk))

theorem lookupAssoc_insertAssoc_ne {α : Type} (m : List (String × α)) (k k' : String) (v : α)
    (hne : k' ≠ k) :
    lookupAssoc (insertAssoc m k v) k' = lookupAssoc m k' := by
  by_cases hk : hasKey m k = true
  · rw [insertAssoc, if_pos hk]
    exact lookupAssoc_replaceAll_ne m k k' v hne
  · rw [insertAssoc, if_neg hk]
    exact lookupAssoc_append_ne m k k' v hne

theorem insertAssoc_insertAssoc {α : Type} (m : List (String × α)) (k : String) (v1 v2 : α) :
    insertAssoc (insertAssoc m k v1) k v2 = insertAssoc m k v2 := by
  have hko : hasKey (insertAssoc m k v1) k = true := hasKey_insertAssoc m k v1
  have h1 : insertAssoc (insertAssoc m k v1) k v2
      = (insertAssoc m k v1).map (fun kv => if kv.1 = k then (k, v2) else kv) := by
    rw [insertAssoc, if_pos hko]
  by_cases hk : hasKey m k = true
  · have e1 : insertAssoc m k v1 = m.map (fun kv => if kv.1 = k then (k, v1) else kv) := by
      rw [insertAssoc, if_pos hk]
    have e2 : insertAssoc m k v2 = m.map (fun kv => if kv.1 = k then (k, v2) else kv) := by
      rw [insertAssoc, if_pos hk]
    have hcomp : ((fun kv : String × α => if kv.1 = k then (k, v2) else kv)
        ∘ (fun kv => if kv.1 = k then (k, v1) else kv))
        = fun kv : String × α => if kv.1 = k then (k, v2) else kv := by
      funext kv
      by_cases hkv : kv.1 = k
      · simp [hkv]
      · simp [hkv]
    rw [h1, e1, e2, List.map_map, hcomp]
  · have hforall : ∀ kv ∈ m, kv.1 ≠ k :=
      (hasKey_eq_false_iff m k).mp (hasKey_of_not _ hk)
    have e1 : insertAssoc m k v1 = m ++ [(k, v1)] := by
      rw [insertAssoc, if_neg hk]
    have e2 : insertAssoc m k v2 = m ++ [(k, v2)] := by
      rw [insertAssoc, if_neg hk]
    rw [h1, e1, e2, List.map_append, map_replace_of_forall_ne m k v2 hforall]
    simp

theorem setAggregatedValues_twice (pd : PropertyData) (v1 v2 : AggregatedValues)
    (h : v1.id = v2.id) :
    (pd.setAggregatedValues v1).setAggregatedValues v2 = pd.setAggregatedValues v2 := by
  simp only [PropertyData.setAggregatedValues]
  rw [h, insertAssoc_insertAssoc]

theorem countKey_replaceAll {α : Type} (m : List (String × α)) (k : String) (v : α) :
    countKey (m.map (fun kv => if kv.1 = k then (k, v) else kv)) k = countKey m k := by
  induction m with
  | nil => rfl
  | cons kv rest ih =>
      obtain ⟨k0, v0⟩ := kv
      by_cases hk : k0 = k
      · rw [List.map_cons, if_pos hk]
        simp only [countKey, List.filter_cons]
        rw [if_pos (by simp), if_pos (by simp [hk])]
        simpa [countKey] using ih
      · rw [List.map_cons, if_neg hk]
        simp only [countKey, List.filter_cons]
        rw [if_neg (by simp [hk]), if_neg (by simp [hk])]
        exact ih

theorem countKey_append_single {α : Type} (m : List (String × α)) (k : String) (v : α) :
    countKey (m ++ [(k, v)]) k = countKey m k + 1 := by
  simp [countKey, List.filter_append]

theorem countKey_pos_of_hasKey {α : Type} (m : List (String × α)) (k : String)
    (h : hasKey m k = true) : 1 ≤ countKey m k := by
  obtain ⟨v, hv⟩ := hasKey_lookupAssoc_isSome m k h
  have hm : (k, v) ∈ m.filter (fun kv => kv.1 = k) :=
    List.mem_filter.mpr ⟨lookupAssoc_mem m k v hv, by simp⟩
  exact List.length_pos_of_mem hm

theorem countKey_eq_zero_of_not_hasKey {α : Type} (m : List (String × α)) (k : String)
    (h : ¬hasKey m k = true) : countKey m k = 0 := by
  rw [countKey, filter_key_eq_nil m k ((hasKey_eq_false_iff m k).mp (hasKey_of_not _ h))]
  rfl

theorem countKey_insertAssoc_of_le_one {α : Type} (m : List (String × α)) (k : String)
    (v : α) (h : countKey m k ≤ 1) : countKey (insertAssoc m k v) k = 1 := by
  by_cases hk : hasKey m k = true
  · rw [insertAssoc, if_pos hk, countKey_replaceAll]
    have := countKey_pos_of_hasKey m k hk
    omega
  · rw [insertAssoc, if_neg hk, countKey_append_single,
      countKey_eq_zero_of_not_hasKey m k hk]

theorem foldl_setAggregatedValues_currentValue (vs : List AggregatedValues) :
    ∀ acc : PropertyData,
      (vs.foldl PropertyData.setAggregatedValues acc).currentValue = acc.currentValue := by
  induction vs with
  | nil => intro acc; rfl
  | cons v rest ih =>
      intro acc
      rw [List.foldl_cons, ih]
      rfl

theorem foldl_setAggregatedValues_lookup_not_mem (vs : List AggregatedValues) (k : String)
    (hk : ∀ v ∈ vs, v.id ≠ k) :
    ∀ acc : PropertyData,
      lookupAssoc (vs.foldl PropertyData.setAggregatedValues acc).aggregatedValues k
        = lookupAssoc acc.aggregatedValues k := by
  induction vs with
  | nil => intro acc; rfl
  | cons v rest ih =>
      intro acc
      rw [List.foldl_cons, ih (fun x hx => hk x (List.mem_cons_of_mem _ hx))]
      simp only [PropertyData.setAggregatedValues]
      exact lookupAssoc_insertAssoc_ne _ _ _ _ (Ne.symm (hk v (List.mem_cons_self v rest)))

theorem foldl_setAggregatedValues_lookup_mem (vs : List AggregatedValues) :
    ∀ v : AggregatedValues, v ∈ vs → (vs.map AggregatedValues.id).Nodup →
    ∀ acc : PropertyData,
      lookupAssoc (vs.foldl PropertyData.setAggregatedValues acc).aggregatedValues v.id
        = some v := by
  induction vs with
  | nil => intro v hv; cases hv
  | cons u rest ih =>
      intro v hv hnd acc
      rw [List.map_cons, List.nodup_cons] at hnd
      rcases List.mem_cons.mp hv with rfl | hv'
      · rw [List.foldl_cons,
          foldl_setAggregatedValues_lookup_not_mem rest v.id
            (fun x hx he => hnd.1 (he ▸ List.mem_map_of_mem _ hx))]
        simp only [PropertyData.setAggregatedValues]
        exact lookupAssoc_insertAssoc_self _ _ _
      · rw [List.foldl_cons]
        exact ih v hv' hnd.2 _

/-- Counterexample to claim C1 as stated: the claim says merging replaces A's
current value only if B has one present, but merging a B with no current value
into an A holding one clears A's value all the same. -/
theorem mergeFrom_counterexample :
    ((PropertyData.mk "Temperature" (some (PropertyValue.mk 5 20)) []).mergeFrom
        (PropertyData.mk "Temperature" none [])).currentValue = none
    ∧ (PropertyData.mk "Temperature" (some (PropertyValue.mk 5 20)) []).currentValue
        ≠ none :=
  ⟨rfl, by decide⟩

/-- Claim C1 amended: merging PropertyData B into A replaces A's current value
with B's unconditionally — clearing it when B has none — and stores every
AggregatedValues of B under its TimeWindow key, overwriting A's entry for that
key and leaving every other key untouched (last-write-wins per key); storing
two AggregatedValues with the same key in sequence equals storing only the
later one, so ingesting the same (device, property, window) key twice leaves
exactly one entry, the later one. -/
theorem mergeFrom_amended (a b : PropertyData)
    (hnd : (b.aggregatedValuesList.map AggregatedValues.id).Nodup) :
    (a.mergeFrom b).currentValue = b.currentValue
    ∧ (∀ v ∈ b.aggregatedValuesList,
        lookupAssoc (a.mergeFrom b).aggregatedValues v.id = some v)
    ∧ (∀ k, (∀ v ∈ b.aggregatedValuesList, v.id ≠ k) →
        lookupAssoc (a.mergeFrom b).aggregatedValues k = lookupAssoc a.aggregatedValues k)
    ∧ (∀ (pd : PropertyData) (v1 v2 : AggregatedValues), v1.id = v2.id →
        (pd.setAggregatedValues v1).setAggregatedValues v2 = pd.setAggregatedValues v2)
    ∧ (∀ (pd : PropertyData) (v1 v2 : AggregatedValues), v1.id = v2.id →
        countKey pd.aggregatedValues v2.id ≤ 1 →
        countKey ((pd.setAggregatedValues v1).setAggregatedValues v2).aggregatedValues
          v2.id = 1) := by
  refine ⟨?_, ?_, ?_, fun pd v1 v2 h => setAggregatedValues_twice pd v1 v2 h, ?_⟩
  · rw [PropertyData.mergeFrom, foldl_setAggregatedValues_currentValue]
    rfl
  · intro v hv
    rw [PropertyData.mergeFrom]
    exact foldl_setAggregatedValues_lookup_mem _ v hv hnd _
  · intro k hk
    rw [PropertyData.mergeFrom, foldl_setAggregatedValues_lookup_not_mem _ k hk]
    rfl
  · intro pd v1 v2 h hle
    rw [setAggregatedValues_twice pd v1 v2 h]
    simp only [PropertyData.setAggregatedValues]
    exact countKey_insertAssoc_of_le_one _ _ _ hle

/-- Witness for the amended C1 at concrete data: merging in a record that has
no current value but one aggregate entry clears the current value and makes the
entry retrievable under its key. -/
theorem mergeFrom_amended_witness :
    ((PropertyData.mk "t" (some (PropertyValue.mk 5 20)) []).mergeFrom
        (PropertyData.mk "t" none
          [("1-2-P1D", AggregatedValues.mk (DateTimeSpan.mk 1 2 "P1D") []
              none none none none none none none)])).currentValue = none
    ∧ lookupAssoc ((PropertyData.mk "t" (some (PropertyValue.mk 5 20)) []).mergeFrom
        (PropertyData.mk "t" none
          [("1-2-P1D", AggregatedValues.mk (DateTimeSpan.mk 1 2 "P1D") []
              none none none none none none none)])).aggregatedValues
        (AggregatedValues.mk (DateTimeSpan.mk 1 2 "P1D") []
          none none none none none none none).id
      = some (AggregatedValues.mk (DateTimeSpan.mk 1 2 "P1D") []
          none none none none none none none) := by
  have h := mergeFrom_amended (PropertyData.mk "t" (some (PropertyValue.mk 5 20)) [])
    (PropertyData.mk "t" none
      [("1-2-P1D", AggregatedValues.mk (DateTimeSpan.mk 1 2 "P1D") []
          none none none none none none none)]) (by decide)
  exact ⟨h.1, h.2.1 _ (by decide)⟩

end Hyperion
